import Mathlib

/-!
Verification of the citation-integrity core of the publisher repository.

The development shallowly embeds the relevant Python functions of
`src/crew/workflow.py` and `src/ledger.py` as executable Lean functions over
`List Char` (Python `str` values are modelled as their character lists).

Regular-expression scans are embedded as explicit left-to-right scanners with
the exact semantics of the CPython `re` module on the concrete patterns used by
the code (`\[S(\d+)\]`, `\bS\d+\b`, `\[S#\]`, `\n\s*\n+`, `^#\s+(.*)`,
`^##\s+(.*)`, `\s+`):  a greedy `\d+` followed by a forced literal can never
backtrack, so each pattern matches at a position iff the literal prefix is
there, a maximal digit run follows, and the forced literal comes right after.
On a failed match the scanner advances one character; on a successful match it
resumes after the match, exactly as `re.sub` / `re.findall` / `re.search` do.

Scanners that skip a variable number of characters per step are written with an
explicit fuel argument, with fuel initialised to the length of the input; every
recursive call consumes at least one character and exactly one unit of fuel, so
the fuel never runs out on the wrapper entry points.  This keeps every
definition structurally recursive and hence evaluable by `decide`/`rfl`.
-/

/-- Python whitespace for `str.strip`, `str.rstrip` and `re` class `\s`
(ASCII range): space, tab, newline, carriage return, vertical tab, form feed. -/
def pySpace (c : Char) : Bool :=
  c = ' ' || c = '\t' || c = '\n' || c = '\r' || c = '\x0b' || c = '\x0c'

/-- Python regex word character (`\w`, ASCII range): letters, digits, underscore. -/
def wordChar (c : Char) : Bool :=
  c.isAlpha || c.isDigit || c = '_'

/-- Python `str.strip()` on a character list. -/
def pyStrip (l : List Char) : List Char :=
  (((l.dropWhile pySpace).reverse).dropWhile pySpace).reverse

/-- Python `str.rstrip()` on a character list. -/
def pyRstrip (l : List Char) : List Char :=
  ((l.reverse).dropWhile pySpace).reverse

/-- Order-preserving deduplication, keeping first occurrences:
`seen` accumulates the keys already emitted. -/
def dedupGo (seen : List String) : List String → List String
  | [] => []
  | k :: ks => if k ∈ seen then dedupGo seen ks else k :: dedupGo (k :: seen) ks

/-- Python `list(dict.fromkeys(xs))`: first-occurrence deduplication. -/
def dedupKeys (ks : List String) : List String :=
  dedupGo [] ks

/-- Substring test: `isSubL pat l` holds iff `pat` occurs contiguously in `l`. -/
def isSubL (pat : List Char) : List Char → Bool
  | [] => pat.isEmpty
  | c :: rest => pat.isPrefixOf (c :: rest) || isSubL pat rest

/-- Scanner for `re.sub(r"\[S(\d+)\]", repl, text)` from `_sanitize_citations`
(src/crew/workflow.py:70-81): a matched token `[S<digits>]` is kept when its
key is in `allowed` and dropped otherwise; everything else is copied verbatim. -/
def sanitizeGo (allowed : List String) : Nat → List Char → List Char
  | 0, l => l
  | _ + 1, [] => []
  | fuel + 1, c :: rest =>
    if c = '[' ∧ rest.head? = some 'S' then
      let d := rest.tail.takeWhile Char.isDigit
      let r := rest.tail.dropWhile Char.isDigit
      if d ≠ [] ∧ r.head? = some ']' then
        (if ('S' :: d).asString ∈ allowed then '[' :: 'S' :: (d ++ [']']) else [])
          ++ sanitizeGo allowed fuel r.tail
      else c :: sanitizeGo allowed fuel rest
    else c :: sanitizeGo allowed fuel rest

/-- `_sanitize_citations(text, allowed_keys)` (src/crew/workflow.py:70-81).
The spec calls this operation `filter_to_allowed`.  (`if not text: return
text` is subsumed: the scan of an empty list is the empty list.) -/
def sanitize_citations (allowed : List String) (text : List Char) : List Char :=
  sanitizeGo allowed text.length text

/-- Scanner for `re.search(r"\[S\d+\]", text)`: does a well-formed citation
token occur anywhere in the text? -/
def hasTokGo : Nat → List Char → Bool
  | 0, _ => false
  | _ + 1, [] => false
  | fuel + 1, c :: rest =>
    if c = '[' ∧ rest.head? = some 'S' then
      let d := rest.tail.takeWhile Char.isDigit
      let r := rest.tail.dropWhile Char.isDigit
      if d ≠ [] ∧ r.head? = some ']' then true
      else hasTokGo fuel rest
    else hasTokGo fuel rest

/-- `re.search(r"\[S\d+\]", text) is not None`, used at
src/crew/workflow.py:92 and 242. -/
def hasTok (text : List Char) : Bool :=
  hasTokGo text.length text

/-- Scanner for `re.findall(r"\[(S\d+)\]", text)`: the keys of the well-formed
citation tokens of the text, in occurrence order, with repetitions. -/
def findTokensGo : Nat → List Char → List String
  | 0, _ => []
  | _ + 1, [] => []
  | fuel + 1, c :: rest =>
    if c = '[' ∧ rest.head? = some 'S' then
      let d := rest.tail.takeWhile Char.isDigit
      let r := rest.tail.dropWhile Char.isDigit
      if d ≠ [] ∧ r.head? = some ']' then
        ('S' :: d).asString :: findTokensGo fuel r.tail
      else findTokensGo fuel rest
    else findTokensGo fuel rest

/-- `SRC_KEYS.findall(text)` with `SRC_KEYS = re.compile(r"\[(S\d+)\]")`
(src/ledger.py:69); also enumerates the citation tokens of a text for the
statements about the sanitizer. -/
def findTokens (text : List Char) : List String :=
  findTokensGo text.length text

/-- The literal placeholder token `[S#]`. -/
def placeholderTok : List Char := ['[', 'S', '#', ']']

/-- Scanner for `re.sub(r"\[S#\]", repl, text)` (src/crew/workflow.py:234-235):
every occurrence of the literal `[S#]` is replaced by `repl` (the replacement
is not rescanned); the keys substituted by the pipeline contain no regex escape,
so the replacement string is taken literally. -/
def replacePHGo (repl : List Char) : Nat → List Char → List Char
  | 0, l => l
  | _ + 1, [] => []
  | fuel + 1, c :: rest =>
    if c = '[' ∧ rest.take 3 = ['S', '#', ']'] then
      repl ++ replacePHGo repl fuel (rest.drop 3)
    else c :: replacePHGo repl fuel rest

/-- `re.sub(r"\[S#\]", repl, text)` on a character list. -/
def replacePH (repl : List Char) (text : List Char) : List Char :=
  replacePHGo repl text.length text

/-- Does the literal placeholder `[S#]` occur in the text? -/
def hasPHGo : Nat → List Char → Bool
  | 0, _ => false
  | _ + 1, [] => false
  | fuel + 1, c :: rest =>
    if c = '[' ∧ rest.take 3 = ['S', '#', ']'] then true
    else hasPHGo fuel rest

/-- Occurrence test for the literal placeholder `[S#]`. -/
def hasPH (text : List Char) : Bool :=
  hasPHGo text.length text

/-- Scanner for `re.findall(r"\bS\d+\b", text)` from `_parse_selected_keys`
(src/crew/workflow.py:39-50).  `prevW` records whether the character before
the current position is a word character (`\b` holds iff word-ness changes);
a match needs a non-word (or absent) character before `S` and after the
maximal digit run. -/
def scanSKGo : Nat → Bool → List Char → List String
  | 0, _, _ => []
  | _ + 1, _, [] => []
  | fuel + 1, prevW, c :: rest =>
    if c = 'S' ∧ prevW = false then
      let d := rest.takeWhile Char.isDigit
      let r := rest.dropWhile Char.isDigit
      if d ≠ [] ∧ r.head?.all (fun c2 => !wordChar c2) then
        ('S' :: d).asString :: scanSKGo fuel true r
      else scanSKGo fuel true rest
    else scanSKGo fuel (wordChar c) rest

/-- `_parse_selected_keys(text)` (src/crew/workflow.py:39-50): all `S<digits>`
word-bounded tokens of the researcher output, in order, deduplicated. -/
def parse_selected_keys (text : List Char) : List String :=
  dedupKeys (scanSKGo text.length false text)

/-- State of the `re.split(r"\n\s*\n+", text)` scanner:
`norm` = inside a paragraph; `cand pend` = saw a newline and then the
whitespace `pend` (separator not yet confirmed, `pend` starts with the
newline); `sep pend` = separator confirmed (two newlines seen in the
whitespace run), `pend` is the whitespace seen after its last newline. -/
inductive SplitMode where
  | norm : SplitMode
  | cand : List Char → SplitMode
  | sep : List Char → SplitMode
deriving DecidableEq

/-- Character-at-a-time scanner for `re.split(r"\n\s*\n+", text)`: a separator
is a whitespace run that starts with a newline and contains a second newline;
greediness of `\s*` followed by `\n+` makes the match extend exactly through
the last newline of the run, so trailing non-newline whitespace of the run
belongs to the next chunk. -/
def splitGo (cur : List Char) : SplitMode → List Char → List (List Char)
  | .norm, [] => [cur]
  | .cand pend, [] => [cur ++ pend]
  | .sep pend, [] => [pend]
  | .norm, c :: rest =>
    if c = '\n' then splitGo cur (.cand ['\n']) rest
    else splitGo (cur ++ [c]) .norm rest
  | .cand pend, c :: rest =>
    if c = '\n' then cur :: splitGo [] (.sep []) rest
    else if pySpace c then splitGo cur (.cand (pend ++ [c])) rest
    else splitGo (cur ++ pend ++ [c]) .norm rest
  | .sep pend, c :: rest =>
    if c = '\n' then splitGo [] (.sep []) rest
    else if pySpace c then splitGo [] (.sep (pend ++ [c])) rest
    else splitGo (pend ++ [c]) .norm rest

/-- `re.split(r"\n\s*\n+", text)` (src/crew/workflow.py:88): the blank-line
delimited chunks of a text. -/
def splitParas (text : List Char) : List (List Char) :=
  splitGo [] .norm text

/-- `_ensure_citation_per_paragraph(text, selected_keys)`
(src/crew/workflow.py:84-96): split the stripped text on blank lines and
append ` [first]` to every paragraph with no well-formed citation token. -/
def ensure_citation_per_paragraph (text : List Char) (selected : List String) : List Char :=
  if text = [] then text
  else
    match selected with
    | [] => text
    | first :: _ =>
      let paras := splitParas (pyStrip text)
      List.intercalate ['\n', '\n']
        (paras.map fun p =>
          if hasTok p then p else pyRstrip p ++ (' ' :: '[' :: (first.data ++ [']'])))

/-- A source record as consumed by the workflow and the ledger: the dict keys
read by the code, each optional (`dict.get` returns `None` when absent). -/
structure SourceItem where
  key : Option String
  title : Option String
  url : Option String
  doi : Option String
  year : Option Int
  abstract : Option String
deriving DecidableEq

/-- Python truthiness of `s.get("key")`: the key when it is neither `None`
nor the empty string. -/
def truthyKey (s : SourceItem) : Option String :=
  match s.key with
  | none => none
  | some k => if k = "" then none else some k

/-- The selection step of `run_generation_with_crew`
(src/crew/workflow.py:165-169): parse the researcher proposal; when that
yields no key, fall back to the first two truthy keys of the catalog. -/
def select_keys (proposal : List Char) (sources : List SourceItem) : List String :=
  let parsed := parse_selected_keys proposal
  if parsed = [] then (sources.filterMap truthyKey).take 2 else parsed

/-- The sanitize-and-return tail of `run_generation_with_crew`
(src/crew/workflow.py:193-246), as a function of the raw editor output, the
raw adapter output (the empty string when the adapter step raised) and the
selected keys.  Both collaborator outputs are stripped at their call sites
(lines 199 and 224); then both texts are filtered, placeholders are replaced
by the first selected key, per-paragraph citations are enforced, a last-resort
citation is appended to the edited text when it still has no token, and the
edited text is returned unless it is empty, in which case the adapted text is. -/
def run_sanitize (editor_out adapter_out : List Char) (selected : List String) : List Char :=
  let ft0 := pyStrip editor_out
  let at0 := pyStrip adapter_out
  let ft1 := sanitize_citations selected ft0
  let at1 := sanitize_citations selected at0
  let ft2 := match selected with
    | [] => ft1
    | first :: _ => replacePH ('[' :: (first.data ++ [']'])) ft1
  let at2 := match selected with
    | [] => at1
    | first :: _ => replacePH ('[' :: (first.data ++ [']'])) at1
  let ft3 := ensure_citation_per_paragraph ft2 selected
  let at3 := ensure_citation_per_paragraph at2 selected
  let ft4 := match selected with
    | [] => ft3
    | first :: _ =>
      if hasTok ft3 then ft3 else pyRstrip ft3 ++ (' ' :: '[' :: (first.data ++ [']']))
  if ft4 ≠ [] then ft4 else at3

/-- Python line-break characters recognised by `str.splitlines`. -/
def isLineBreak (c : Char) : Bool :=
  c = '\n' || c = '\r' || c = '\x0b' || c = '\x0c' ||
  c = '\x1c' || c = '\x1d' || c = '\x1e' || c = '\x85' ||
  c = '\u2028' || c = '\u2029'

/-- `str.splitlines()`: `cur` accumulates the current line reversed; `\r\n`
counts as a single break; a trailing break yields no extra empty line. -/
def splitLinesGo (cur : List Char) : List Char → List (List Char)
  | [] => if cur = [] then [] else [cur.reverse]
  | '\r' :: '\n' :: rest => cur.reverse :: splitLinesGo [] rest
  | c :: rest =>
    if isLineBreak c then cur.reverse :: splitLinesGo [] rest
    else splitLinesGo (c :: cur) rest

/-- `md_text.splitlines()` (src/ledger.py:76). -/
def splitLines (text : List Char) : List (List Char) :=
  splitLinesGo [] text

/-- `H1.match(ln)` with `H1 = re.compile(r"^#\s+(.*)")` (src/ledger.py:67):
a hash followed by at least one whitespace character; returns group 1, the
line after the maximal whitespace run following the hash. -/
def matchH1 (ln : List Char) : Option (List Char) :=
  match ln with
  | '#' :: c :: rest =>
    if pySpace c then some ((c :: rest).dropWhile pySpace) else none
  | _ => none

/-- `H2.match(ln)` with `H2 = re.compile(r"^##\s+(.*)")` (src/ledger.py:68). -/
def matchH2 (ln : List Char) : Option (List Char) :=
  match ln with
  | '#' :: '#' :: c :: rest =>
    if pySpace c then some ((c :: rest).dropWhile pySpace) else none
  | _ => none

/-- The loop state of `_iter_paragraphs` (src/ledger.py:71-103): the two most
recent heading titles, the current paragraph buffer (a list of lines), and the
pairs yielded so far. -/
structure ParseSt where
  h1 : Option String
  h2 : Option String
  buf : List (List Char)
  out : List (String × List Char)
deriving DecidableEq

/-- `" > ".join([p for p in [h1, h2] if p]) or "ROOT"`: the section path,
skipping absent or empty titles, defaulting to the sentinel root label. -/
def sectionPath (h1 h2 : Option String) : String :=
  let s := String.intercalate " > " (([h1, h2].filterMap id).filter (fun t => t ≠ ""))
  if s = "" then "ROOT" else s

/-- The nested `flush()` of `_iter_paragraphs`: join the buffer with newlines,
strip it, and yield it under the active section path when non-empty; the
buffer is always cleared. -/
def flushSt (st : ParseSt) : ParseSt :=
  if st.buf = [] then st
  else
    let para := pyStrip (List.intercalate ['\n'] st.buf)
    if para = [] then { st with buf := [] }
    else { st with buf := [], out := st.out ++ [(sectionPath st.h1 st.h2, para)] }

/-- One iteration of the line loop of `_iter_paragraphs`
(src/ledger.py:89-102): level-1 headings flush and reset both heading levels,
level-2 headings flush and set the second level, blank lines flush, and every
other line is accumulated into the paragraph buffer. -/
def iterStep (st : ParseSt) (ln : List Char) : ParseSt :=
  match matchH1 ln with
  | some g => let f := flushSt st; { f with h1 := some (pyStrip g).asString, h2 := none }
  | none =>
    match matchH2 ln with
    | some g => let f := flushSt st; { f with h2 := some (pyStrip g).asString }
    | none =>
      if pyStrip ln = [] then flushSt st
      else { st with buf := st.buf ++ [ln] }

/-- `_iter_paragraphs(md_text)` (src/ledger.py:71-103): the
`(section_path, paragraph)` pairs of a markdown text, with a final flush. -/
def iter_paragraphs (md : List Char) : List (String × List Char) :=
  (flushSt ((splitLines md).foldl iterStep ⟨none, none, [], []⟩)).out

/-- `extract_claims(md_text)` (src/ledger.py:105-114): the paragraphs that
carry at least one citation token, with their deduplicated key lists. -/
def extract_claims (md : List Char) : List (String × List Char × List String) :=
  (iter_paragraphs md).filterMap fun sp =>
    let keys := dedupKeys (findTokens sp.2)
    if keys.isEmpty then none else some (sp.1, sp.2, keys)

/-- Python dict insertion `m[k] = v`: update in place when the key is present,
append otherwise. -/
def dictInsert (m : List (String × String)) (k v : String) : List (String × String) :=
  if m.any (fun p => p.1 = k) then m.map (fun p => if p.1 = k then (k, v) else p)
  else m ++ [(k, v)]

/-- Python `m.get(k)` on the association-list model of a dict. -/
def dictGet (m : List (String × String)) (k : String) : Option String :=
  (m.find? (fun p => p.1 = k)).map (fun p => p.2)

/-- The APA-ish citation string built by `load_sources_maps`
(src/ledger.py:141-154) for one source item; Python truthiness governs every
branch (`0`, `""` and `None` are falsy). -/
def apaOf (it : SourceItem) : String :=
  let title := match it.title with | none => "Untitled" | some t => if t = "" then "Untitled" else t
  let base := match it.year with
    | none => title ++ ". "
    | some y => if y = 0 then title ++ ". " else "(" ++ toString y ++ ") " ++ title ++ ". "
  match it.doi with
  | some d => if d ≠ "" then base ++ "https://doi.org/" ++ d else
      match it.url with
      | some u => if u ≠ "" then base ++ u else base
      | none => base
  | none =>
      match it.url with
      | some u => if u ≠ "" then base ++ u else base
      | none => base

/-- `load_sources_maps` (src/ledger.py:128-156) without the file I/O: fold the
parsed source items into the references and abstracts dicts, skipping items
whose key is falsy. -/
def load_sources_maps (data : List SourceItem) :
    List (String × String) × List (String × String) :=
  data.foldl
    (fun maps it =>
      match truthyKey it with
      | none => maps
      | some k =>
        let abs := match it.abstract with | none => "" | some a => a
        (dictInsert maps.1 k (apaOf it), dictInsert maps.2 k abs))
    ([], [])

/-- `_norm(s)` (src/ledger.py:118-119): collapse every whitespace run to one
space, then strip.  `prevW` records whether the previous character was
whitespace (the `re.sub(r"\s+", " ", s)` scan). -/
def collapseGo (prevW : Bool) : List Char → List Char
  | [] => []
  | c :: rest =>
    if pySpace c then
      if prevW then collapseGo true rest else ' ' :: collapseGo true rest
    else c :: collapseGo false rest

/-- `_norm(s)` (src/ledger.py:118-119). -/
def normWs (s : List Char) : List Char :=
  pyStrip (collapseGo false s)

/-- Whitespace-delimited tokens of a text (fuelled scanner). -/
def wordsGo : Nat → List Char → List (List Char)
  | 0, _ => []
  | _ + 1, [] => []
  | fuel + 1, c :: rest =>
    if pySpace c then wordsGo fuel rest
    else (c :: rest.takeWhile (fun x => !pySpace x))
      :: wordsGo fuel (rest.dropWhile (fun x => !pySpace x))

/-- Whitespace-delimited tokens of a text. -/
def wordsOf (s : List Char) : List (List Char) :=
  wordsGo s.length s

/-- Modelled from the spec: `rapidfuzz.fuzz.token_set_ratio` is an external
library dependency whose source is not part of this repository; the spec
describes it as a "token-set overlap ratio, order-insensitive and robust to
partial phrase overlap", returning a score scaled so that division by 100
lands in [0,1] and identical inputs score 100.  We model it as the Jaccard
overlap of the whitespace-token sets, scaled to [0,100], with 100 when both
token sets are empty (identical inputs always score 100). -/
def tokenSetSim (a b : List Char) : ℚ :=
  let A := ((wordsOf a).map List.asString).toFinset
  let B := ((wordsOf b).map List.asString).toFinset
  if A ∪ B = ∅ then 100
  else 100 * ((A ∩ B).card : ℚ) / ((A ∪ B).card : ℚ)

/-- `similarity(a, b)` (src/ledger.py:121-124): `None` when `b` is falsy
(absent abstract or empty string), otherwise the token-set score of the
normalised strings divided by 100. -/
def similarity (a : List Char) (b : Option (List Char)) : Option ℚ :=
  match b with
  | none => none
  | some bs => if bs = [] then none else some (tokenSetSim (normWs a) (normWs bs) / 100)

/-- A row of the claim ledger (src/ledger.py:14-22); `created_at` is an
abstract timestamp. -/
structure LedgerRow where
  project_id : String
  «section» : String
  claim_text : List Char
  source_key : String
  source_citation : String
  similarity_score : Option ℚ
  created_at : Nat
deriving DecidableEq

/-- The rows built by `log_claims_from_markdown` (src/ledger.py:160-196)
without the file and database I/O: one row per extracted claim and citation
key, with the citation string and the similarity against the source abstract. -/
def log_claims_rows (project_id : String) (md : List Char)
    (catalog : List SourceItem) (now : Nat) : List LedgerRow :=
  let maps := load_sources_maps catalog
  ((extract_claims md).map fun c =>
    c.2.2.map fun key =>
      { project_id := project_id
        «section» := c.1
        claim_text := c.2.1
        source_key := key
        source_citation := (dictGet maps.1 key).getD ""
        similarity_score := similarity c.2.1 ((dictGet maps.2 key).map String.data)
        created_at := now }).flatten

/-! ### Helper lemmas -/

theorem head_dropWhile_false (p : Char → Bool) :
    ∀ (l : List Char) (c : Char) (rest : List Char),
      l.dropWhile p = c :: rest → p c = false := by
  intro l
  induction l with
  | nil => intro c rest h; simp [List.dropWhile] at h
  | cons a as ih =>
    intro c rest h
    by_cases ha : p a
    · exact ih c rest (by simpa [List.dropWhile_cons_of_pos ha] using h)
    · rw [List.dropWhile_cons_of_neg ha] at h
      cases h
      simpa using ha

theorem mem_dropWhile_of_mem (p : Char → Bool) (c : Char) :
    ∀ (l : List Char), c ∈ l → p c = false → c ∈ l.dropWhile p := by
  intro l
  induction l with
  | nil => intro h; simp at h
  | cons a as ih =>
    intro hmem hc
    by_cases ha : p a
    · rw [List.dropWhile_cons_of_pos ha]
      rcases List.mem_cons.mp hmem with rfl | h
      · rw [hc] at ha; cases ha
      · exact ih h hc
    · rw [List.dropWhile_cons_of_neg ha]
      exact hmem

theorem pyStrip_ne_nil {l : List Char} {c : Char}
    (hmem : c ∈ l) (hc : pySpace c = false) : pyStrip l ≠ [] := by
  have h1 : c ∈ (l.dropWhile pySpace).reverse :=
    List.mem_reverse.mpr (mem_dropWhile_of_mem pySpace c l hmem hc)
  have h2 : c ∈ ((l.dropWhile pySpace).reverse.dropWhile pySpace) :=
    mem_dropWhile_of_mem pySpace c _ h1 hc
  intro h
  rw [pyStrip, List.reverse_eq_nil_iff] at h
  rw [h] at h2
  simp at h2

theorem pyStrip_has_nonspace {l : List Char} (h : pyStrip l ≠ []) :
    ∃ c ∈ pyStrip l, pySpace c = false := by
  have hrne : (l.dropWhile pySpace).reverse.dropWhile pySpace ≠ [] := by
    intro h0
    apply h
    rw [pyStrip, h0, List.reverse_nil]
  obtain ⟨c, rest, hcr⟩ := List.exists_cons_of_ne_nil hrne
  refine ⟨c, ?_, head_dropWhile_false pySpace _ c rest hcr⟩
  rw [pyStrip, hcr]
  simp

theorem mem_of_mem_dedupGo {k : String} :
    ∀ {seen ks}, k ∈ dedupGo seen ks → k ∈ ks := by
  intro seen ks
  induction ks generalizing seen with
  | nil => intro h; simp [dedupGo] at h
  | cons a as ih =>
    intro h
    rw [dedupGo] at h
    by_cases ha : a ∈ seen
    · rw [if_pos ha] at h
      exact List.mem_cons_of_mem a (ih h)
    · rw [if_neg ha] at h
      rcases List.mem_cons.mp h with rfl | h
      · exact List.mem_cons_self _ _
      · exact List.mem_cons_of_mem a (ih h)

theorem isPrefixOf_append (x z : List Char) : x.isPrefixOf (x ++ z) = true := by
  induction x with
  | nil => simp [List.isPrefixOf]
  | cons c cs ih => simp [List.isPrefixOf, ih]

theorem isSubL_of_isPrefixOf {pat l : List Char} (h : pat.isPrefixOf l = true) :
    isSubL pat l = true := by
  cases l with
  | nil =>
    cases pat with
    | nil => simp [isSubL]
    | cons c cs => simp [List.isPrefixOf] at h
  | cons c rest => simp [isSubL, h]

theorem isSubL_cons {pat rest : List Char} (c : Char) (h : isSubL pat rest = true) :
    isSubL pat (c :: rest) = true := by
  simp [isSubL, h]

theorem isSubL_append_left {pat b : List Char} :
    ∀ a, isSubL pat b = true → isSubL pat (a ++ b) = true := by
  intro a h
  induction a with
  | nil => simp only [List.nil_append]; exact h
  | cons c cs ih => exact isSubL_cons c ih

theorem sanitizeGo_id_of_no_tok (allowed : List String) :
    ∀ (fuel : Nat) (l : List Char), hasTokGo fuel l = false →
      sanitizeGo allowed fuel l = l := by
  intro fuel
  induction fuel with
  | zero => intro l _; rfl
  | succ n ih =>
    intro l h
    cases l with
    | nil => rfl
    | cons c rest =>
      rw [hasTokGo] at h
      rw [sanitizeGo]
      by_cases h1 : c = '[' ∧ rest.head? = some 'S'
      · rw [if_pos h1] at h ⊢
        by_cases h2 : rest.tail.takeWhile Char.isDigit ≠ [] ∧
            (rest.tail.dropWhile Char.isDigit).head? = some ']'
        · rw [if_pos h2] at h; cases h
        · rw [if_neg h2] at h ⊢
          rw [ih rest h]
      · rw [if_neg h1] at h ⊢
        rw [ih rest h]

theorem findTokensGo_isSubL :
    ∀ (fuel : Nat) (l : List Char) (k : String), k ∈ findTokensGo fuel l →
      isSubL ('[' :: (k.data ++ [']'])) l = true := by
  intro fuel
  induction fuel with
  | zero => intro l k h; simp [findTokensGo] at h
  | succ n ih =>
    intro l k h
    cases l with
    | nil => simp [findTokensGo] at h
    | cons c rest =>
      rw [findTokensGo] at h
      by_cases h1 : c = '[' ∧ rest.head? = some 'S'
      · rw [if_pos h1] at h
        obtain ⟨hc, hs⟩ := h1
        subst hc
        cases rest with
        | nil => simp at hs
        | cons s rs =>
          have hs' : s = 'S' := by simpa using hs
          subst hs'
          simp only [List.tail_cons] at h
          by_cases h2 : rs.takeWhile Char.isDigit ≠ [] ∧
              (rs.dropWhile Char.isDigit).head? = some ']'
          · rw [if_pos h2] at h
            obtain ⟨hd, hr⟩ := h2
            obtain ⟨c2, r2, hr2⟩ : ∃ c2 r2, rs.dropWhile Char.isDigit = c2 :: r2 := by
              cases hcase : rs.dropWhile Char.isDigit with
              | nil => rw [hcase] at hr; simp at hr
              | cons c2 r2 => exact ⟨c2, r2, rfl⟩
            have hc2 : c2 = ']' := by rw [hr2] at hr; simpa using hr
            subst hc2
            rw [hr2, List.tail_cons] at h
            have hsplit : '[' :: 'S' :: rs =
                ('[' :: (('S' :: rs.takeWhile Char.isDigit) ++ [']'])) ++ r2 := by
              calc '[' :: 'S' :: rs
                  = '[' :: 'S' :: (rs.takeWhile Char.isDigit ++ rs.dropWhile Char.isDigit) := by
                    rw [List.takeWhile_append_dropWhile]
                _ = ('[' :: (('S' :: rs.takeWhile Char.isDigit) ++ [']'])) ++ r2 := by
                    rw [hr2]; simp
            rcases List.mem_cons.mp h with rfl | hmem
            · rw [hsplit]
              exact isSubL_of_isPrefixOf (isPrefixOf_append _ _)
            · have hsub := ih _ k hmem
              rw [hsplit]
              exact isSubL_append_left _ hsub
          · rw [if_neg h2] at h
            have := ih _ k h
            exact isSubL_cons _ this
      · rw [if_neg h1] at h
        exact isSubL_cons _ (ih _ k h)

theorem replacePHGo_nil (repl : List Char) (fuel : Nat) :
    replacePHGo repl fuel [] = [] := by
  cases fuel <;> rfl

theorem replacePHGo_fuel (repl : List Char) :
    ∀ (fuel fuel2 : Nat) (l : List Char), l.length ≤ fuel → l.length ≤ fuel2 →
      replacePHGo repl fuel l = replacePHGo repl fuel2 l := by
  intro fuel
  induction fuel with
  | zero =>
    intro fuel2 l h _
    rw [List.length_eq_zero.mp (Nat.le_zero.mp h)]
    rw [replacePHGo_nil, replacePHGo_nil]
  | succ n ih =>
    intro fuel2 l h h2
    cases l with
    | nil => rw [replacePHGo_nil, replacePHGo_nil]
    | cons c rest =>
      cases fuel2 with
      | zero => simp at h2
      | succ m =>
        rw [replacePHGo, replacePHGo]
        have hrest : rest.length ≤ n := by simpa using h
        have hrest2 : rest.length ≤ m := by simpa using h2
        by_cases hc : c = '[' ∧ rest.take 3 = ['S', '#', ']']
        · rw [if_pos hc, if_pos hc]
          have hd : (rest.drop 3).length ≤ n :=
            le_trans (by rw [List.length_drop]; exact Nat.sub_le _ _) hrest
          have hd2 : (rest.drop 3).length ≤ m :=
            le_trans (by rw [List.length_drop]; exact Nat.sub_le _ _) hrest2
          rw [ih m (rest.drop 3) hd hd2]
        · rw [if_neg hc, if_neg hc]
          rw [ih m rest hrest hrest2]

theorem wordsGo_ne_nil :
    ∀ (fuel : Nat) (l : List Char), l.length ≤ fuel →
      (∃ c ∈ l, pySpace c = false) → wordsGo fuel l ≠ [] := by
  intro fuel
  induction fuel with
  | zero =>
    intro l h hex
    rw [List.length_eq_zero.mp (Nat.le_zero.mp h)] at hex
    simp at hex
  | succ n ih =>
    intro l h hex
    cases l with
    | nil => simp at hex
    | cons c rest =>
      rw [wordsGo]
      by_cases hc : pySpace c
      · rw [if_pos hc]
        obtain ⟨c2, hc2mem, hc2⟩ := hex
        rcases List.mem_cons.mp hc2mem with rfl | hmem
        · rw [hc2] at hc; cases hc
        · exact ih rest (by simpa using h) ⟨c2, hmem, hc2⟩
      · rw [if_neg hc]
        simp

theorem tokenSetSim_bounds (a b : List Char) :
    0 ≤ tokenSetSim a b ∧ tokenSetSim a b ≤ 100 := by
  rw [tokenSetSim]
  by_cases h : (((wordsOf a).map List.asString).toFinset ∪
      ((wordsOf b).map List.asString).toFinset) = ∅
  · rw [if_pos h]; norm_num
  · rw [if_neg h]
    have hcardpos : 0 < (((wordsOf a).map List.asString).toFinset ∪
        ((wordsOf b).map List.asString).toFinset).card :=
      Finset.card_pos.mpr (Finset.nonempty_iff_ne_empty.mpr h)
    have hle : ((((wordsOf a).map List.asString).toFinset ∩
        ((wordsOf b).map List.asString).toFinset).card : ℚ) ≤
        ((((wordsOf a).map List.asString).toFinset ∪
        ((wordsOf b).map List.asString).toFinset).card : ℚ) :=
      Nat.cast_le.mpr (Finset.card_le_card (Finset.inter_subset_union))
    have hupos : (0 : ℚ) < ((((wordsOf a).map List.asString).toFinset ∪
        ((wordsOf b).map List.asString).toFinset).card : ℚ) :=
      by exact_mod_cast hcardpos
    constructor
    · positivity
    · rw [div_le_iff₀ hupos]
      exact mul_le_mul_of_nonneg_left hle (by norm_num)

/-! ### Claims -/

/-- Claim C1.  The claimed property — for every editor/adapter text and every
selected key set `A`, the sanitized output of `run_generation_with_crew`
contains no citation token whose key is outside `A` — fails on the code: the
single-pass removal in `_sanitize_citations` can splice a fresh token out of
the surrounding characters.  With editor output `"[S1[S7]3]"` and
`A = ["S1"]`, removing `[S7]` yields the output `"[S13]"`, whose only
citation token has the foreign key `S13 ∉ A`. -/
theorem c1_foreign_citation_bug :
    run_sanitize "[S1[S7]3]".data "ok [S1].".data ["S1"] = "[S13]".data ∧
    findTokens "[S13]".data = ["S13"] ∧
    ("S13" : String) ∉ (["S1"] : List String) := by
  refine ⟨by decide, by decide, by decide⟩

/-- Claim C2.  The claimed property — with a non-empty selected key set, every
blank-line-delimited paragraph of the sanitized output contains a citation
token whose key is in the selected set — fails on the code, through the same
splice: with editor output `"[S1[S7]3]"` and selected keys `["S1"]` the output
is the single paragraph `"[S13]"`, which carries a token (so
`_ensure_citation_per_paragraph` appends nothing) but no token with an
approved key. -/
theorem c2_coverage_bug :
    splitParas (run_sanitize "[S1[S7]3]".data "ok [S1].".data ["S1"]) = ["[S13]".data] ∧
    (findTokens "[S13]".data).filter (fun k => (["S1"] : List String).contains k) = [] := by
  refine ⟨by decide, by decide⟩

/-- Claim C3.  The claimed fallback — when the editing step returns an empty
text, the pipeline returns the sanitized adapted text — fails on the code:
the last-resort citation append (workflow.py:242-243) runs before the
`final_text or adapted_text` fallback (line 246), so an empty edited text
becomes the non-empty `" [S1]"` and the adapted text is never returned.  The
third conjunct records the sanitized adapted text the claim expected. -/
theorem c3_empty_editor_bug :
    run_sanitize "".data "Good text [S1].".data ["S1"] = " [S1]".data ∧
    " [S1]".data ≠ "Good text [S1].".data ∧
    ensure_citation_per_paragraph
        (replacePH "[S1]".data (sanitize_citations ["S1"] (pyStrip "Good text [S1].".data)))
        ["S1"] = "Good text [S1].".data := by
  refine ⟨by decide, by decide, by decide⟩

/-- Claim C4.  The claimed idempotence of `filter_to_allowed`
(`_sanitize_citations`) fails on the code: filtering `"[S1[S7]3]"` with
allowed set `["S1"]` yields `"[S13]"`, and filtering that again removes the
spliced foreign token and yields `""` — the second run is not a no-op. -/
theorem c4_not_idempotent :
    sanitize_citations ["S1"] "[S1[S7]3]".data = "[S13]".data ∧
    sanitize_citations ["S1"] (sanitize_citations ["S1"] "[S1[S7]3]".data) = [] ∧
    ([] : List Char) ≠ "[S13]".data := by
  refine ⟨by decide, by decide, by decide⟩

/-- Claim C5, counterexample.  The claim says `filter_to_allowed` removes
every citation token with a malformed key; in fact the scan for
`\[S(\d+)\]` never matches a malformed token, so `[Sx]` and `[S]` survive
filtering verbatim: the filtered text still contains `[Sx]`. -/
theorem c5_counterexample :
    sanitize_citations ["S1"] "a [Sx] b [S] c.".data = "a [Sx] b [S] c.".data ∧
    isSubL "[Sx]".data (sanitize_citations ["S1"] "a [Sx] b [S] c.".data) = true := by
  refine ⟨by decide, by decide⟩

/-- Claim C5, as amended.  Bracketed tokens with malformed keys (anything not
of the shape `[S<digits>]`) are not removed but left in place:
`filter_to_allowed` returns any text containing no well-formed citation token
unchanged, for every allowed-key set; only well-formed tokens are subject to
removal. -/
theorem c5_malformed_not_removed :
    ∀ (allowed : List String) (text : List Char), hasTok text = false →
      sanitize_citations allowed text = text := by
  intro allowed text h
  exact sanitizeGo_id_of_no_tok allowed text.length text h

/-- Witness for the amended claim C5 at a concrete malformed-token text. -/
theorem c5_malformed_not_removed_witness :
    hasTok "bad [S] [Sx] [x1] text".data = false ∧
    sanitize_citations ["S9"] "bad [S] [Sx] [x1] text".data = "bad [S] [Sx] [x1] text".data :=
  ⟨by decide, c5_malformed_not_removed ["S9"] "bad [S] [Sx] [x1] text".data (by decide)⟩

/-- Claim C6.  When `_parse_selected_keys` finds no key in the selection
proposal, `run_generation_with_crew` selects the first two truthy keys of the
source catalog in catalog order; for a catalog with keys `S1, S2, S3` the
selected set is exactly `["S1", "S2"]`. -/
theorem c6_fallback_selection :
    (∀ (proposal : List Char) (sources : List SourceItem),
      parse_selected_keys proposal = [] →
        select_keys proposal sources = (sources.filterMap truthyKey).take 2) ∧
    (∀ proposal : List Char, parse_selected_keys proposal = [] →
      select_keys proposal
        [⟨some "S1", none, none, none, none, none⟩, ⟨some "S2", none, none, none, none, none⟩,
         ⟨some "S3", none, none, none, none, none⟩] = ["S1", "S2"]) := by
  constructor
  · intro proposal sources h
    rw [select_keys, h, if_pos rfl]
  · intro proposal h
    rw [select_keys, h, if_pos rfl]
    decide

/-- Witness for claim C6 at a concrete unusable proposal. -/
theorem c6_fallback_selection_witness :
    parse_selected_keys "alas, no usable key tokens given!".data = [] ∧
    select_keys "alas, no usable key tokens given!".data
      [⟨some "S1", none, none, none, none, none⟩, ⟨some "S2", none, none, none, none, none⟩,
       ⟨some "S3", none, none, none, none, none⟩] = ["S1", "S2"] :=
  ⟨by decide, c6_fallback_selection.2 "alas, no usable key tokens given!".data (by decide)⟩

theorem take3_ne_pat (t2 b : List Char) (h : t2.take 3 ≠ ['S', '#', ']']) :
    (t2 ++ (placeholderTok ++ b)).take 3 ≠ ['S', '#', ']'] := by
  rcases t2 with _ | ⟨x, _ | ⟨y, _ | ⟨z, t3⟩⟩⟩
  · intro hcon; rw [placeholderTok] at hcon; simp at hcon
  · intro hcon; rw [placeholderTok] at hcon; simp at hcon
  · intro hcon; rw [placeholderTok] at hcon; simp at hcon
  · intro hcon
    apply h
    simp only [List.cons_append, List.take_succ_cons, List.take_zero] at hcon ⊢
    exact hcon

/-- Claim C7.  The enforcement stage replaces every surviving literal
placeholder token `[S#]` with the first approved key in brackets: the spec
scenario — edited text `"Sleep aids memory [S#]."` with approved keys
`["S4"]` sanitizes to `"Sleep aids memory [S4]."` — holds, and in general the
placeholder substitution rewrites each occurrence of `[S#]` to the
replacement while leaving the placeholder-free part untouched. -/
theorem c7_placeholder :
    (run_sanitize "Sleep aids memory [S#].".data "".data ["S4"] =
      "Sleep aids memory [S4].".data) ∧
    (∀ (t b repl : List Char), hasPH t = false →
      replacePH repl (t ++ placeholderTok ++ b) = t ++ repl ++ replacePH repl b) := by
  constructor
  · decide
  · intro t b repl
    induction t with
    | nil =>
      intro _
      simp only [List.nil_append]
      rw [replacePH]
      rw [show placeholderTok ++ b = '[' :: 'S' :: '#' :: ']' :: b from rfl]
      rw [show ('[' :: 'S' :: '#' :: ']' :: b).length = (b.length + 3) + 1 from by
        simp only [List.length_cons]]
      rw [replacePHGo]
      rw [if_pos ⟨rfl, by simp⟩]
      have hdrop : ('S' :: '#' :: ']' :: b).drop 3 = b := by simp
      rw [hdrop]
      rw [replacePHGo_fuel repl (b.length + 3) b.length b (by omega) (le_refl _)]
      rfl
    | cons c t2 ih =>
      intro h
      have hsplit : hasPHGo (t2.length + 1) (c :: t2) = false := by
        simpa [hasPH, List.length_cons] using h
      rw [hasPHGo] at hsplit
      by_cases hc : c = '[' ∧ t2.take 3 = ['S', '#', ']']
      · rw [if_pos hc] at hsplit; cases hsplit
      · rw [if_neg hc] at hsplit
        have ht2 : hasPH t2 = false := hsplit
        have harg : (c :: t2) ++ placeholderTok ++ b = c :: (t2 ++ placeholderTok ++ b) := by
          simp
        rw [replacePH, harg, List.length_cons, replacePHGo]
        have hcond : ¬(c = '[' ∧ (t2 ++ placeholderTok ++ b).take 3 = ['S', '#', ']']) := by
          rintro ⟨h1, h2⟩
          by_cases hx : t2.take 3 = ['S', '#', ']']
          · exact hc ⟨h1, hx⟩
          · exact take3_ne_pat t2 b hx (by rw [← List.append_assoc]; exact h2)
        rw [if_neg hcond]
        have := ih ht2
        rw [replacePH] at this
        rw [this]
        simp

/-- Witness for claim C7: the general replacement equation applied at a
concrete placeholder-free prefix, suffix and replacement. -/
theorem c7_placeholder_witness :
    hasPH "Sleep ".data = false ∧
    replacePH "[S4]".data ("Sleep ".data ++ placeholderTok ++ ".".data) =
      "Sleep ".data ++ "[S4]".data ++ replacePH "[S4]".data ".".data :=
  ⟨by decide, c7_placeholder.2 "Sleep ".data ".".data "[S4]".data (by decide)⟩

/-- Claim C8.  The similarity scorer returns `none` exactly when the source
abstract is unavailable (absent, or stored as the empty string); every
returned score lies in `[0, 1]`; and a text with non-empty normalisation
scores exactly `1` against itself.  The token-set scorer itself is modelled
from the spec (see `tokenSetSim`), as `rapidfuzz` is an external dependency. -/
theorem c8_similarity :
    (∀ (a : List Char) (b : Option (List Char)),
      similarity a b = none ↔ b = none ∨ b = some []) ∧
    (∀ (a : List Char) (b : Option (List Char)) (v : ℚ),
      similarity a b = some v → 0 ≤ v ∧ v ≤ 1) ∧
    (∀ x : List Char, normWs x ≠ [] → similarity x (some x) = some 1) := by
  refine ⟨?_, ?_, ?_⟩
  · intro a b
    cases b with
    | none => simp [similarity]
    | some bs =>
      rw [similarity]
      by_cases hb : bs = []
      · subst hb; simp
      · rw [if_neg hb]; simp [hb]
  · intro a b v h
    cases b with
    | none => simp [similarity] at h
    | some bs =>
      rw [similarity] at h
      by_cases hb : bs = []
      · rw [if_pos hb] at h; cases h
      · rw [if_neg hb] at h
        obtain ⟨h0, h100⟩ := tokenSetSim_bounds (normWs a) (normWs bs)
        have hv : tokenSetSim (normWs a) (normWs bs) / 100 = v := Option.some_inj.mp h
        constructor
        · rw [← hv]; positivity
        · rw [← hv, div_le_one (by norm_num)]; exact h100
  · intro x hx
    have hxne : x ≠ [] := by
      intro h0; apply hx; rw [h0]; rfl
    rw [similarity, if_neg hxne]
    congr 1
    have hw : wordsOf (normWs x) ≠ [] := by
      obtain ⟨c, hcmem, hcns⟩ := pyStrip_has_nonspace (l := collapseGo false x) hx
      exact wordsGo_ne_nil (normWs x).length (normWs x) (le_refl _) ⟨c, hcmem, hcns⟩
    have hA : ((wordsOf (normWs x)).map List.asString).toFinset ≠ ∅ := by
      intro h0
      rw [List.toFinset_eq_empty_iff] at h0
      exact hw (List.map_eq_nil_iff.mp h0)
    rw [tokenSetSim]
    rw [Finset.union_self, Finset.inter_self]
    rw [if_neg hA]
    have hc0 : ((((wordsOf (normWs x)).map List.asString).toFinset.card : ℚ)) ≠ 0 := by
      have hcard : ((wordsOf (normWs x)).map List.asString).toFinset.card ≠ 0 :=
        fun h0 => hA (Finset.card_eq_zero.mp h0)
      exact_mod_cast hcard
    rw [mul_div_assoc, div_self hc0, mul_one]
    norm_num

/-- Witness for claim C8: the null case, the bounds and the self-similarity
case at concrete inputs. -/
theorem c8_similarity_witness :
    similarity "a b".data none = none ∧
    (0 ≤ (1 : ℚ) ∧ (1 : ℚ) ≤ 1) ∧
    (normWs "memory loss".data ≠ [] ∧
      similarity "memory loss".data (some "memory loss".data) = some 1) := by
  have h3 := c8_similarity.2.2 "memory loss".data (by decide)
  exact ⟨(c8_similarity.1 "a b".data none).mpr (Or.inl rfl),
    c8_similarity.2.1 "memory loss".data (some "memory loss".data) 1 h3,
    by decide, h3⟩

/-- Claim C9.  Every ledger row produced by `log_claims_from_markdown`
satisfies the Claim Record invariant: the row's `source_key` appears as a
bracketed token inside the row's `claim_text`, for every document, catalog
and timestamp. -/
theorem c9_ledger_invariant :
    ∀ (pid : String) (md : List Char) (catalog : List SourceItem) (now : Nat)
      (r : LedgerRow), r ∈ log_claims_rows pid md catalog now →
      isSubL ('[' :: (r.source_key.data ++ [']'])) r.claim_text = true := by
  intro pid md catalog now r hmem
  rw [log_claims_rows] at hmem
  rw [List.mem_flatten] at hmem
  obtain ⟨L, hL, hrL⟩ := hmem
  rw [List.mem_map] at hL
  obtain ⟨c, hc, rfl⟩ := hL
  rw [List.mem_map] at hrL
  obtain ⟨key, hkey, rfl⟩ := hrL
  rw [extract_claims, List.mem_filterMap] at hc
  obtain ⟨sp, _, heq⟩ := hc
  dsimp only [] at heq
  split at heq
  · cases heq
  · have hc2 : (sp.1, sp.2, dedupKeys (findTokens sp.2)) = c := Option.some_inj.mp heq
    obtain rfl := hc2
    dsimp only [] at hkey ⊢
    have hk2 : key ∈ findTokens sp.2 := mem_of_mem_dedupGo hkey
    exact findTokensGo_isSubL sp.2.length sp.2 key hk2

/-- Witness for claim C9 at a concrete document, catalog and row. -/
theorem c9_ledger_invariant_witness :
    ({ project_id := "p1", «section» := "Intro", claim_text := "Neurons fire. [S1]".data,
       source_key := "S1", source_citation := "(2020) T. ", similarity_score := none,
       created_at := 0 } : LedgerRow) ∈
      log_claims_rows "p1" "# Intro\n\nNeurons fire. [S1]".data
        [⟨some "S1", some "T", none, none, some 2020, none⟩] 0 ∧
    isSubL "[S1]".data "Neurons fire. [S1]".data = true := by
  have hm : ({ project_id := "p1", «section» := "Intro",
               claim_text := "Neurons fire. [S1]".data, source_key := "S1",
               source_citation := "(2020) T. ", similarity_score := none,
               created_at := 0 } : LedgerRow) ∈
      log_claims_rows "p1" "# Intro\n\nNeurons fire. [S1]".data
        [⟨some "S1", some "T", none, none, some 2020, none⟩] 0 := by decide
  exact ⟨hm, c9_ledger_invariant "p1" "# Intro\n\nNeurons fire. [S1]".data
    [⟨some "S1", some "T", none, none, some 2020, none⟩] 0
    { project_id := "p1", «section» := "Intro", claim_text := "Neurons fire. [S1]".data,
      source_key := "S1", source_citation := "(2020) T. ", similarity_score := none,
      created_at := 0 } hm⟩

/-- Claim C10.  In the claim extractor, lines beginning with three hashes (or
more generally a hash not followed as required by `^#\s+` or `^##\s+`) are
not headings: they match neither heading pattern, and the line-loop step
treats them as ordinary paragraph text — the line is appended to the
paragraph buffer while the heading state and the emitted output stay
unchanged (no flush). -/
theorem c10_heading_rules :
    (∀ ln : List Char, ln.take 3 = ['#', '#', '#'] →
      matchH1 ln = none ∧ matchH2 ln = none) ∧
    (∀ (st : ParseSt) (ln : List Char), ln.head? = some '#' →
      matchH1 ln = none → matchH2 ln = none →
      iterStep st ln = { st with buf := st.buf ++ [ln] }) := by
  constructor
  · intro ln h
    rcases ln with _ | ⟨a, _ | ⟨b2, _ | ⟨c2, rest⟩⟩⟩
    · simp at h
    · simp [List.take] at h
    · simp [List.take] at h
    · simp only [List.take_succ_cons, List.take_zero] at h
      obtain ⟨rfl, rfl, rfl⟩ : a = '#' ∧ b2 = '#' ∧ c2 = '#' := by simpa using h
      constructor
      · simp [matchH1, pySpace]
      · simp [matchH2, pySpace]
  · intro st ln hhead h1 h2
    simp only [iterStep, h1, h2]
    obtain ⟨c, rest, rfl⟩ : ∃ c rest, ln = c :: rest := by
      cases ln with
      | nil => simp at hhead
      | cons c rest => exact ⟨c, rest, rfl⟩
    have hc : c = '#' := by simpa using hhead
    subst hc
    have hne : pyStrip ('#' :: rest) ≠ [] :=
      pyStrip_ne_nil (List.mem_cons_self _ _) (by decide)
    rw [if_neg hne]

/-- Witness for claim C10 at a concrete `###` line and a concrete state. -/
theorem c10_heading_rules_witness :
    matchH1 "### Not a heading".data = none ∧
    matchH2 "### Not a heading".data = none ∧
    iterStep ⟨some "Ch", some "Sec", ["x".data], [("Ch", "p".data)]⟩ "### Not a heading".data =
      ⟨some "Ch", some "Sec", ["x".data, "### Not a heading".data], [("Ch", "p".data)]⟩ :=
  ⟨by decide, by decide,
    c10_heading_rules.2 ⟨some "Ch", some "Sec", ["x".data], [("Ch", "p".data)]⟩
      "### Not a heading".data (by decide) (by decide) (by decide)⟩
